import Mathlib

/-!
Verification of the image-aggregation service (`src/server/app/image.py`).

The Python source is shallowly embedded below.  Python strings are modelled
as `List Char` where character-level reasoning is needed (the repository-name
encoder) and as Lean `String` elsewhere.  Fallible remote fetches are
modelled with `Except String`, the error text standing for the exception
message `str(e)`.
-/

namespace ClusterImages

/-! ### Repository name encoder (`encode_repository_name`, image.py lines 135-170) -/

/-- Embeds Python `full.startswith(pre)` on character lists: first argument is
the full string, second the candidate leading segment. -/
def pyStartsWith : List Char → List Char → Bool
  | _, [] => true
  | [], _ :: _ => false
  | c :: cs, p :: ps => c == p && pyStartsWith cs ps

/-- Embeds the fallback `full_repo_name.split('/', 1)`: returns `some rest`
when the string contains a slash (`rest` is everything after the first one),
and `none` when it does not. -/
def afterFirstSlash : List Char → Option (List Char)
  | [] => none
  | c :: rest => if c = '/' then some rest else afterFirstSlash rest

/-- Embeds `repo_path.replace('/', '%252F')`: every slash character is
replaced by the five characters `%252F`. -/
def replaceSlash : List Char → List Char
  | [] => []
  | c :: rest =>
    if c = '/' then '%' :: '2' :: '5' :: '2' :: 'F' :: replaceSlash rest
    else c :: replaceSlash rest

/-- The five-character expansion of one slash, `%252F`. -/
def slashEnc : List Char := ['%', '2', '5', '2', 'F']

/-- Splits a character list at every slash (spec-side view of the
replacement: the segments between slashes). -/
def splitOnSlash : List Char → List (List Char)
  | [] => [[]]
  | c :: rest =>
    if c = '/' then [] :: splitOnSlash rest
    else
      match splitOnSlash rest with
      | [] => [[c]]
      | s :: ss => (c :: s) :: ss

/-- Joins segments with a separator (spec-side view: the result of replacing
each dropped slash by `sep`). -/
def joinSep (sep : List Char) : List (List Char) → List Char
  | [] => []
  | [s] => s
  | s :: s2 :: ss => s ++ sep ++ joinSep sep (s2 :: ss)

/-- Embeds `encode_repository_name` (image.py lines 135-170): strip the
leading project segment if present, otherwise fall back to everything after
the first slash (or the whole name when it has no slash), then replace each
remaining slash by `%252F`. -/
def encode_repository_name (full_repo_name project_name : List Char) : List Char :=
  let repo_path :=
    if pyStartsWith full_repo_name (project_name ++ ['/']) then
      full_repo_name.drop (project_name.length + 1)
    else
      match afterFirstSlash full_repo_name with
      | some rest => rest
      | none => full_repo_name
  replaceSlash repo_path

/-! ### Data model (spec section 3, and the JSON shapes used in image.py) -/

/-- A tag object carried by a registry artifact. -/
structure Tag where
  name : String
deriving DecidableEq

/-- A registry artifact: digest, raw byte size, and its tag list.  `tags`
is `none` when the JSON field is absent or null, and `some l` when it is a
list (image.py line 283 treats absent, null and empty alike). -/
structure Artifact where
  digest : String
  size : Nat
  tags : Option (List Tag)
deriving DecidableEq

/-- Decidable equality for fetch outcomes, needed to evaluate concrete
worlds with `decide`. -/
instance {ε α : Type} [DecidableEq ε] [DecidableEq α] : DecidableEq (Except ε α) :=
  fun x y =>
    match x, y with
    | .ok a, .ok b =>
      if h : a = b then .isTrue (by rw [h]) else .isFalse (by intro he; cases he; exact h rfl)
    | .error a, .error b =>
      if h : a = b then .isTrue (by rw [h]) else .isFalse (by intro he; cases he; exact h rfl)
    | .ok _, .error _ => .isFalse (by intro he; cases he)
    | .error _, .ok _ => .isFalse (by intro he; cases he)

/-- A repository as seen by the walk: its full (project-prefixed) name and
the outcome of fetching its artifact list (`Except.error` carries the
exception text `str(e)`). -/
structure RepoData where
  name : String
  artifacts : Except String (List Artifact)
deriving DecidableEq

/-- A project as seen by the walk: its name and the outcome of fetching its
repository list. -/
structure ProjectData where
  name : String
  repositories : Except String (List RepoData)
deriving DecidableEq

/-- The remote registry as observed through the walk's fetches: the outcome
of fetching the project list at its root. -/
structure HarborWorld where
  projects : Except String (List ProjectData)
deriving DecidableEq

/-- One error entry of the response (spec: SourceError).  `repository` is
`none` for unscoped errors. -/
structure SourceError where
  source : String
  repository : Option String
  error : String
deriving DecidableEq

/-- One `harbor_images` record (image.py lines 285-291). -/
structure HarborImage where
  repository : String
  tag : String
  digest : String
  size : String
  project : String
deriving DecidableEq

/-- One `containerd_images` record (spec section 3, ImageRecord). -/
structure ImageRecord where
  repository : String
  tag : String
  image_id : String
  size : String
deriving DecidableEq

/-- The harbor section of the configuration (DEFAULT_CONFIG, image.py
lines 40-47). -/
structure HarborConfig where
  url : String
  user : String
  password : String
  project_name : String
  page_size : Nat
  verify_ssl : Bool
deriving DecidableEq

/-- The aggregate response body (image.py lines 196-200). -/
structure AggregateResult where
  containerd_images : List ImageRecord
  harbor_images : List HarborImage
  errors : List SourceError
deriving DecidableEq

/-! ### Harbor branch (image.py lines 229-306) -/

/-- Embeds `all([harbor_cfg['url'], harbor_cfg['user'], harbor_cfg['password']])`
(image.py line 231): Python truthiness of a string is non-emptiness. -/
def harborConfigComplete (cfg : HarborConfig) : Bool :=
  cfg.url != "" && cfg.user != "" && cfg.password != ""

/-- Models the external `humanize.naturalsize` collaborator at its interface
boundary: a pure function from a raw byte count to a human-readable decimal
string.  The claims depend only on it being a function of the byte count. -/
def naturalsizeGo : Nat → List String → String
  | n, [] => toString n
  | n, u :: us =>
    if n < 1000 * 1000 then
      toString (n / 1000) ++ "." ++ toString (n % 1000 / 100) ++ " " ++ u
    else naturalsizeGo (n / 1000) us

/-- Human-readable size string; see `naturalsizeGo`. -/
def naturalsize (bytes : Nat) : String :=
  if bytes < 1000 then toString bytes ++ " Bytes"
  else naturalsizeGo bytes ["kB", "MB", "GB", "TB", "PB", "EB"]

/-- Embeds the inner tag loop (image.py lines 282-291): records are emitted
only when the artifact's `tags` field is present, non-null and non-empty
(`if 'tags' in artifact and artifact['tags']`), one per tag, all sharing the
already-converted size string `sizeStr`. -/
def tagRecords (full_repo_name project_name : String) (a : Artifact)
    (sizeStr : String) : List HarborImage :=
  match a.tags with
  | some (t :: ts) =>
    (t :: ts).map (fun tg => ⟨full_repo_name, tg.name, a.digest, sizeStr, project_name⟩)
  | _ => []

/-- Embeds the first artifact loop (image.py lines 279-280): each artifact's
raw byte size is converted to a human-readable string once. -/
def convertSizes (arts : List Artifact) : List (Artifact × String) :=
  arts.map (fun a => (a, naturalsize a.size))

/-- Embeds the two sequential artifact loops (image.py lines 279-291): sizes
converted once per artifact, then one record appended per (artifact, tag). -/
def flattenArtifacts (full_repo_name project_name : String)
    (arts : List Artifact) : List HarborImage :=
  ((convertSizes arts).map
    (fun pr => tagRecords full_repo_name project_name pr.1 pr.2)).flatten

/-- The flattening step as the spec words it (spec 4.5 step 4): one record
per (artifact, tag) pair, with the display repository name, the owning
project name, the tag name, the digest, and the human-readable size computed
from the artifact's byte count. -/
def flattenArtifactsSpec (full_repo_name project_name : String)
    (arts : List Artifact) : List HarborImage :=
  (arts.map (fun a =>
    (a.tags.getD []).map
      (fun tg => ⟨full_repo_name, tg.name, a.digest, naturalsize a.size, project_name⟩))).flatten

/-- Embeds the per-repository body (image.py lines 252-291): a failed
artifact fetch yields one repository-scoped error and no records
(`continue`); a successful one yields the flattened records and no error. -/
def processRepo (project_name : String) (repo : RepoData) :
    List HarborImage × List SourceError :=
  match repo.artifacts with
  | .error e => ([], [⟨"harbor", some repo.name, "Failed to fetch artifacts: " ++ e⟩])
  | .ok arts => (flattenArtifacts repo.name project_name arts, [])

/-- Embeds the repository loop of one project: images and errors accumulate
in repository order. -/
def processRepos (project_name : String) : List RepoData →
    List HarborImage × List SourceError
  | [] => ([], [])
  | r :: rs =>
    ((processRepo project_name r).1 ++ (processRepos project_name rs).1,
     (processRepo project_name r).2 ++ (processRepos project_name rs).2)

/-- Embeds the project loop inside the harbor `try` block (image.py lines
243-293).  A failed repository-list fetch raises out of the loop: the
accumulated error list is kept and extended with one unscoped error, but the
locally accumulated image list is discarded, because
`result["harbor_images"] = harbor_images` (line 293) runs only after the
whole loop finishes. -/
def walkProjects : List ProjectData → List HarborImage → List SourceError →
    List HarborImage × List SourceError
  | [], imgs, errs => (imgs, errs)
  | p :: ps, imgs, errs =>
    match p.repositories with
    | .error e => ([], errs ++ [⟨"harbor", none, e⟩])
    | .ok repos =>
      walkProjects ps (imgs ++ (processRepos p.name repos).1)
        (errs ++ (processRepos p.name repos).2)

/-- Embeds the whole harbor branch (image.py lines 229-306): incomplete
configuration short-circuits with one unscoped error; a failed project-list
fetch likewise; otherwise the project walk runs. -/
def harborBranch (cfg : HarborConfig) (world : HarborWorld) :
    List HarborImage × List SourceError :=
  if harborConfigComplete cfg then
    match world.projects with
    | .error e => ([], [⟨"harbor", none, e⟩])
    | .ok ps => walkProjects ps [] []
  else
    ([], [⟨"harbor", none, "Harbor configuration incomplete"⟩])

/-! ### Containerd branch (image.py lines 202-227) -/

/-- The observable outcome of the `crictl images` subprocess call:
exit 0 with stdout, nonzero exit with (stripped) stderr, or a raised
exception (timeout, spawn failure) with its message. -/
inductive CrictlOutcome where
  | ok (stdout : String)
  | fail (stderr : String)
  | exn (msg : String)
deriving DecidableEq

/-- Modelled from the spec: `parse_crictl_images_output` lives in
`image_api.py`, which is not under src.  Spec 4.1: one line, whitespace
delimited, columns repository / tag / image id / size (the size reconstructed
by joining the trailing columns); lines with fewer than four columns are
skipped; records whose image id is in the ignore set are dropped. -/
def parseLine (ignored : List String) (line : String) : Option ImageRecord :=
  match (line.split (fun c => c.isWhitespace)).filter (fun s => s ≠ "") with
  | r :: t :: id :: s1 :: srest =>
    if id ∈ ignored then none
    else some ⟨r, t, id, " ".intercalate (s1 :: srest)⟩
  | _ => none

/-- Modelled from the spec: `parse_crictl_images_output` (image_api.py, not
under src).  Spec 4.1: the first line is a header row to discard; malformed
lines are skipped without failing the parse. -/
def parse_crictl_images_output (output : String) (ignored : List String) :
    List ImageRecord :=
  match output.splitOn "\n" with
  | [] => []
  | _header :: dataLines => dataLines.filterMap (parseLine ignored)

/-- Embeds the containerd branch (image.py lines 202-227): exit 0 parses
stdout against the ignore set; nonzero exit records one containerd error
with the stderr text; an exception records one containerd error with the
exception message. -/
def containerdBranch (outcome : CrictlOutcome) (ignored : List String) :
    List ImageRecord × List SourceError :=
  match outcome with
  | .ok out => (parse_crictl_images_output out ignored, [])
  | .fail err => ([], [⟨"containerd", none, "Failed to execute crictl command: " ++ err⟩])
  | .exn e => ([], [⟨"containerd", none, e⟩])

/-! ### The endpoint (image.py lines 183-308) -/

/-- Embeds `get_all_images`: the containerd branch runs first, then the
harbor branch; each branch writes only its own collection, and errors
accumulate in branch order. -/
def get_all_images (crictl : CrictlOutcome) (ignored : List String)
    (cfg : HarborConfig) (world : HarborWorld) : AggregateResult :=
  ⟨(containerdBranch crictl ignored).1,
   (harborBranch cfg world).1,
   (containerdBranch crictl ignored).2 ++ (harborBranch cfg world).2⟩

/-- An HTTP response as the route produces it. -/
structure HttpResponse where
  status : Nat
  body : AggregateResult
deriving DecidableEq

/-- Models the Flask route shell at its interface boundary: `jsonify(result)`
(image.py line 308) serialises the body with the default HTTP status 200,
and the handler body is total (every branch catches its exceptions). -/
def imagesEndpoint (crictl : CrictlOutcome) (ignored : List String)
    (cfg : HarborConfig) (world : HarborWorld) : HttpResponse :=
  ⟨200, get_all_images crictl ignored cfg world⟩

/-! ### Paginated registry client (spec 4.3; harbor_image_api.py is not under src) -/

/-- Modelled from the spec: the page loop of `get_harbor_paginated_results`
(harbor_image_api.py, not under src).  `fetch k` returns page `k` together
with the reported total item count, or the error text of a failed request.
The loop issues page 1, 2, ... and stops when the accumulated count reaches
the reported total or a page comes back shorter than `page_size`; a failed
page request aborts the whole fetch.  `fuel` bounds the recursion; the
theorems supply enough fuel for the loop to reach its stopping condition.
Returns the items together with the number of page requests issued. -/
def fetchPages {α : Type} (fetch : Nat → Except String (List α × Nat))
    (page_size : Nat) : Nat → Nat → List α → Nat → Except String (List α × Nat)
  | 0, _, _, _ => .error "pagination did not terminate"
  | fuel + 1, k, acc, nreq =>
    match fetch k with
    | .error e => .error e
    | .ok pr =>
      if pr.2 ≤ (acc ++ pr.1).length ∨ pr.1.length < page_size then
        .ok (acc ++ pr.1, nreq + 1)
      else fetchPages fetch page_size fuel (k + 1) (acc ++ pr.1) (nreq + 1)

/-- Modelled from the spec: `get_harbor_paginated_results`
(harbor_image_api.py, not under src).  Starts the page loop at page 1 with
an empty accumulator and zero requests issued. -/
def get_harbor_paginated_results {α : Type}
    (fetch : Nat → Except String (List α × Nat)) (page_size fuel : Nat) :
    Except String (List α × Nat) :=
  fetchPages fetch page_size fuel 1 [] 0

/-- Page `k` (1-based) of a collection under page size `P`. -/
def pageOf {α : Type} (items : List α) (P k : Nat) : List α :=
  (items.drop ((k - 1) * P)).take P

/-- A registry that answers every page request honestly for a fixed
collection, reporting the true total. -/
def honestFetch {α : Type} (items : List α) (P : Nat) (k : Nat) :
    Except String (List α × Nat) :=
  .ok (pageOf items P k, items.length)

/-- A registry that behaves honestly except that the request for page `j`
fails with `err`. -/
def failAtFetch {α : Type} (items : List α) (P j : Nat) (err : String)
    (k : Nat) : Except String (List α × Nat) :=
  if k = j then .error err else honestFetch items P k

/-- The number of page requests the loop issues for `N` items at page size
`P`: the ceiling of N / P, except that even an empty collection takes one
request, since the total is only learnt from the first response. -/
def numPages (N P : Nat) : Nat := max 1 ((N + P - 1) / P)

/-! ### Observations used to state the claims -/

/-- Whether a fetch outcome is a failure. -/
def isErr {ε α : Type} : Except ε α → Bool
  | .error _ => true
  | .ok _ => false

/-- Whether the harbor walk hits a list-level failure: the project-list
fetch fails, or some project's repository-list fetch fails. -/
def anyListFetchFails (world : HarborWorld) : Bool :=
  match world.projects with
  | .error _ => true
  | .ok ps => ps.any (fun p => isErr p.repositories)

/-- Whether an error entry is an unscoped harbor error (no repository
field). -/
def isUnscopedHarbor (e : SourceError) : Bool :=
  e.source == "harbor" && e.repository.isNone

/-- The repositories of a project whose listing succeeded. -/
def reposOf (p : ProjectData) : List RepoData :=
  match p.repositories with
  | .ok rs => rs
  | .error _ => []

/-- The images a repository contributes when its artifact fetch succeeds,
and nothing when it fails. -/
def repoImages (project_name : String) (r : RepoData) : List HarborImage :=
  match r.artifacts with
  | .ok arts => flattenArtifacts r.name project_name arts
  | .error _ => []

/-- The single scoped error a repository contributes when its artifact fetch
fails, and nothing when it succeeds. -/
def repoErrors (r : RepoData) : List SourceError :=
  match r.artifacts with
  | .ok _ => []
  | .error e => [⟨"harbor", some r.name, "Failed to fetch artifacts: " ++ e⟩]

/-- The images the walk is expected to collect when every listing succeeds:
one block per repository with a successful artifact fetch, in walk order. -/
def expectedImages (ps : List ProjectData) : List HarborImage :=
  (ps.map (fun p => ((reposOf p).map (repoImages p.name)).flatten)).flatten

/-- The errors the walk is expected to record when every listing succeeds:
one scoped entry per repository with a failed artifact fetch, in walk
order. -/
def expectedErrors (ps : List ProjectData) : List SourceError :=
  (ps.map (fun p => ((reposOf p).map repoErrors).flatten)).flatten

/-! ### Concrete fixtures for witnesses and counterexamples -/

/-- A complete harbor configuration. -/
def cfgOk : HarborConfig := ⟨"https://harbor.example", "admin", "pw", "", 100, true⟩

/-- A configuration whose password is empty (incomplete). -/
def cfgNoPw : HarborConfig := ⟨"https://harbor.example", "admin", "", "", 100, true⟩

/-- An artifact with one tag. -/
def artTagged : Artifact := ⟨"sha256:aaa", 123456, some [⟨"v1"⟩]⟩

/-- A repository whose artifact fetch succeeds with one tagged artifact. -/
def repoGood : RepoData := ⟨"p1/good", .ok [artTagged]⟩

/-- A repository whose artifact fetch fails. -/
def repoBad : RepoData := ⟨"p1/bad", .error "connection reset"⟩

/-- World for C2: the first project succeeds end to end (one image
collected), then the second project's repository-list fetch fails. -/
def worldListFail : HarborWorld :=
  ⟨.ok [⟨"p1", .ok [repoGood]⟩, ⟨"p2", .error "boom"⟩]⟩

/-- World for C3: one project, listings succeed, one of two repositories
fails its artifact fetch. -/
def worldRepoFail : HarborWorld :=
  ⟨.ok [⟨"p1", .ok [repoGood, repoBad]⟩]⟩

/-- Five artifacts, each with a single tag. -/
def fiveArtifacts : List Artifact :=
  (List.range 5).map (fun i => ⟨"sha256:" ++ toString i, 1000 + i, some [⟨"v" ++ toString i⟩]⟩)

/-- World for C6: 2 projects, 3 repositories in total, 5 single-tagged
artifacts each, hence 15 records. -/
def worldFifteen : HarborWorld :=
  ⟨.ok [⟨"p1", .ok [⟨"p1/r1", .ok fiveArtifacts⟩, ⟨"p1/r2", .ok fiveArtifacts⟩]⟩,
        ⟨"p2", .ok [⟨"p2/r3", .ok fiveArtifacts⟩]⟩]⟩

/-! ## Theorems -/

/-! ### Helper lemmas about the encoder -/

theorem pyStartsWith_append (p t : List Char) : pyStartsWith (p ++ t) p = true := by
  induction p with
  | nil => cases t <;> rfl
  | cons c p ih => simp [pyStartsWith, ih]

theorem mem_of_pyStartsWith : ∀ (full pre : List Char), pyStartsWith full pre = true →
    ∀ c ∈ pre, c ∈ full
  | _, [], _, _, hc => absurd hc (List.not_mem_nil _)
  | [], _ :: _, h, _, _ => by simp [pyStartsWith] at h
  | c :: cs, p :: ps, h, x, hx => by
    rw [pyStartsWith, Bool.and_eq_true] at h
    rcases List.mem_cons.mp hx with hxp | hxps
    · exact hxp ▸ (beq_iff_eq.mp h.1) ▸ List.mem_cons_self c cs
    · exact List.mem_cons_of_mem c (mem_of_pyStartsWith cs ps h.2 x hxps)

theorem afterFirstSlash_of_no_slash : ∀ (l : List Char), '/' ∉ l →
    afterFirstSlash l = none
  | [], _ => rfl
  | c :: rest, h => by
    have hc : ¬ c = '/' := fun hc => h (hc ▸ List.mem_cons_self c rest)
    simp only [afterFirstSlash, if_neg hc]
    exact afterFirstSlash_of_no_slash rest (fun hm => h (List.mem_cons_of_mem c hm))

theorem afterFirstSlash_append : ∀ (a b : List Char), '/' ∉ a →
    afterFirstSlash (a ++ '/' :: b) = some b
  | [], b, _ => by simp [afterFirstSlash]
  | c :: a, b, h => by
    have hc : ¬ c = '/' := fun hc => h (hc ▸ List.mem_cons_self c a)
    simp only [List.cons_append, afterFirstSlash, if_neg hc]
    exact afterFirstSlash_append a b (fun hm => h (List.mem_cons_of_mem c hm))

theorem replaceSlash_of_no_slash : ∀ (l : List Char), '/' ∉ l → replaceSlash l = l
  | [], _ => rfl
  | c :: rest, h => by
    have hc : ¬ c = '/' := fun hc => h (hc ▸ List.mem_cons_self c rest)
    simp only [replaceSlash, if_neg hc, List.cons.injEq, true_and]
    exact replaceSlash_of_no_slash rest (fun hm => h (List.mem_cons_of_mem c hm))

theorem slash_not_mem_replaceSlash : ∀ (l : List Char), '/' ∉ replaceSlash l
  | [] => List.not_mem_nil _
  | c :: rest => by
    by_cases hc : c = '/'
    · simp only [replaceSlash, if_pos hc, List.mem_cons]
      intro h
      rcases h with h | h | h | h | h | h
      all_goals first
        | exact absurd h (by decide)
        | exact slash_not_mem_replaceSlash rest h
    · simp only [replaceSlash, if_neg hc, List.mem_cons]
      intro h
      rcases h with h | h
      · exact hc h.symm
      · exact slash_not_mem_replaceSlash rest h

theorem splitOnSlash_ne_nil : ∀ (l : List Char), splitOnSlash l ≠ []
  | [] => by simp [splitOnSlash]
  | c :: rest => by
    by_cases hc : c = '/'
    · simp [splitOnSlash, if_pos hc]
    · simp only [splitOnSlash, if_neg hc]
      cases h : splitOnSlash rest <;> simp

theorem replaceSlash_eq_joinSep : ∀ (l : List Char),
    replaceSlash l = joinSep slashEnc (splitOnSlash l)
  | [] => rfl
  | c :: rest => by
    by_cases hc : c = '/'
    · simp only [replaceSlash, if_pos hc, splitOnSlash]
      cases h : splitOnSlash rest with
      | nil => exact absurd h (splitOnSlash_ne_nil rest)
      | cons s ss =>
        have ih := replaceSlash_eq_joinSep rest
        rw [h] at ih
        simp [joinSep, slashEnc, ih, hc]
    · simp only [replaceSlash, if_neg hc, splitOnSlash]
      cases h : splitOnSlash rest with
      | nil => exact absurd h (splitOnSlash_ne_nil rest)
      | cons s ss =>
        have ih := replaceSlash_eq_joinSep rest
        rw [h] at ih
        cases ss with
        | nil => simp [joinSep, ih]
        | cons s2 ss2 => simp [joinSep, ih]

theorem encode_of_no_slash (full project : List Char) (h : '/' ∉ full) :
    encode_repository_name full project = full := by
  have hsw : pyStartsWith full (project ++ ['/']) = false := by
    cases hb : pyStartsWith full (project ++ ['/'])
    · rfl
    · exact absurd (mem_of_pyStartsWith full (project ++ ['/']) hb '/'
        (List.mem_append_right project (List.mem_singleton.mpr rfl))) h
  simp only [encode_repository_name, hsw, Bool.false_eq_true, if_false,
    afterFirstSlash_of_no_slash full h]
  exact replaceSlash_of_no_slash full h

theorem encode_strip (project rest : List Char) :
    encode_repository_name (project ++ '/' :: rest) project = replaceSlash rest := by
  have hform : project ++ '/' :: rest = (project ++ ['/']) ++ rest := by
    simp
  have hd : List.drop (project.length + 1) ((project ++ ['/']) ++ rest) = rest := by
    have hlen : project.length + 1 = (project ++ ['/']).length := by simp
    rw [hlen, List.drop_left]
  have hsw : pyStartsWith (project ++ '/' :: rest) (project ++ ['/']) = true := by
    rw [hform]
    exact pyStartsWith_append (project ++ ['/']) rest
  simp [encode_repository_name, hsw, hd]

theorem encode_fallback (full project a b : List Char)
    (hsw : pyStartsWith full (project ++ ['/']) = false)
    (hfull : full = a ++ '/' :: b) (ha : '/' ∉ a) :
    encode_repository_name full project = replaceSlash b := by
  subst hfull
  simp only [encode_repository_name, hsw, Bool.false_eq_true, if_false,
    afterFirstSlash_append a b ha]

/-! ### Claim C1 -/

/-- C1: `encode_repository_name` strips the leading project segment when
present (otherwise takes everything after the first slash, or the whole name
when it has no slash), then replaces every remaining slash by `%252F`
(stated spec-side as joining the between-slash segments with `%252F`); and
the two documented examples hold. -/
theorem encode_repository_name_spec :
    (∀ project rest : List Char,
      encode_repository_name (project ++ '/' :: rest) project
        = joinSep slashEnc (splitOnSlash rest))
    ∧ (∀ full project a b : List Char,
        pyStartsWith full (project ++ ['/']) = false → full = a ++ '/' :: b →
        '/' ∉ a →
        encode_repository_name full project = joinSep slashEnc (splitOnSlash b))
    ∧ (∀ full project : List Char, '/' ∉ full →
        encode_repository_name full project = full)
    ∧ encode_repository_name ("nvcr.io/nvidia/pytorch").toList ("nvcr.io").toList
        = ("nvidia%252Fpytorch").toList
    ∧ encode_repository_name ("custom/my-image").toList ("custom").toList
        = ("my-image").toList := by
  refine ⟨?_, ?_, ?_, by decide, by decide⟩
  · intro project rest
    rw [encode_strip, replaceSlash_eq_joinSep]
  · intro full project a b hsw hfull ha
    rw [encode_fallback full project a b hsw hfull ha, replaceSlash_eq_joinSep]
  · intro full project h
    exact encode_of_no_slash full project h

/-- Witness for C1: the fallback clause at a concrete non-prefixed name, and
the no-slash clause at a concrete slash-free name. -/
theorem encode_repository_name_spec_witness :
    encode_repository_name ("x/y").toList ("p").toList
      = joinSep slashEnc (splitOnSlash ("y").toList)
    ∧ encode_repository_name ("noslash").toList ("p").toList = ("noslash").toList :=
  ⟨encode_repository_name_spec.2.1 ("x/y").toList ("p").toList
      ("x").toList ("y").toList (by decide) (by decide) (by decide),
   encode_repository_name_spec.2.2.1 ("noslash").toList ("p").toList (by decide)⟩

/-! ### Claim C9 -/

/-- C9: `encode_repository_name` is idempotent in its first argument,
because its output never contains a literal slash. -/
theorem encode_repository_name_idempotent :
    ∀ full project : List Char,
      encode_repository_name (encode_repository_name full project) project
        = encode_repository_name full project := by
  intro full project
  apply encode_of_no_slash
  simp only [encode_repository_name]
  exact slash_not_mem_replaceSlash _

/-! ### Helper lemmas about the harbor walk -/

theorem processRepo_fst (pn : String) (r : RepoData) :
    (processRepo pn r).1 = repoImages pn r := by
  cases h : r.artifacts <;> simp [processRepo, repoImages, h]

theorem processRepo_snd (pn : String) (r : RepoData) :
    (processRepo pn r).2 = repoErrors r := by
  cases h : r.artifacts <;> simp [processRepo, repoErrors, h]

theorem processRepos_eq : ∀ (pn : String) (rs : List RepoData),
    processRepos pn rs = ((rs.map (repoImages pn)).flatten, (rs.map repoErrors).flatten)
  | _, [] => rfl
  | pn, r :: rs => by
    simp [processRepos, processRepos_eq pn rs, processRepo_fst, processRepo_snd]

theorem repoErrors_scoped (r : RepoData) :
    ∀ e ∈ repoErrors r, e.source = "harbor" ∧ e.repository.isSome = true := by
  cases h : r.artifacts <;> simp [repoErrors, h]

theorem processRepos_errors_scoped (pn : String) (rs : List RepoData) :
    ∀ e ∈ (processRepos pn rs).2, e.source = "harbor" ∧ e.repository.isSome = true := by
  rw [processRepos_eq]
  intro e he
  obtain ⟨l, hl, hel⟩ := List.mem_flatten.mp he
  obtain ⟨r, _, rfl⟩ := List.mem_map.mp hl
  exact repoErrors_scoped r e hel

theorem scoped_not_unscoped (e : SourceError)
    (h : e.source = "harbor" ∧ e.repository.isSome = true) :
    isUnscopedHarbor e = false := by
  cases hr : e.repository with
  | none => rw [hr] at h; simp at h
  | some s => simp [isUnscopedHarbor, hr]

theorem walkProjects_list_failure :
    ∀ (ps : List ProjectData) (imgs : List HarborImage) (errs : List SourceError),
      (∀ e ∈ errs, e.source = "harbor" ∧ e.repository.isSome = true) →
      ps.any (fun p => isErr p.repositories) = true →
      (walkProjects ps imgs errs).1 = []
      ∧ ((walkProjects ps imgs errs).2.filter isUnscopedHarbor).length = 1
      ∧ ∀ e ∈ (walkProjects ps imgs errs).2, e.source = "harbor"
  | [], _, _, _, hany => by simp at hany
  | p :: ps, imgs, errs, herrs, hany => by
    cases hp : p.repositories with
    | error e =>
      have hfe : errs.filter isUnscopedHarbor = [] := by
        rw [List.filter_eq_nil_iff]
        intro a ha
        simp [scoped_not_unscoped a (herrs a ha)]
      refine ⟨by simp [walkProjects, hp], ?_, ?_⟩
      · simp [walkProjects, hp, List.filter_append, hfe, isUnscopedHarbor]
      · intro x hx
        simp only [walkProjects, hp] at hx
        rcases List.mem_append.mp hx with h | h
        · exact (herrs x h).1
        · simp at h
          rw [h]
    | ok repos =>
      have hany2 : ps.any (fun p => isErr p.repositories) = true := by
        simp only [List.any_cons, hp, isErr, Bool.false_or] at hany
        exact hany
      have herrs2 : ∀ e ∈ errs ++ (processRepos p.name repos).2,
          e.source = "harbor" ∧ e.repository.isSome = true := by
        intro e he
        rcases List.mem_append.mp he with h | h
        · exact herrs e h
        · exact processRepos_errors_scoped p.name repos e h
      have ih := walkProjects_list_failure ps (imgs ++ (processRepos p.name repos).1)
        (errs ++ (processRepos p.name repos).2) herrs2 hany2
      simpa [walkProjects, hp] using ih

theorem walkProjects_all_ok :
    ∀ (ps : List ProjectData) (imgs : List HarborImage) (errs : List SourceError),
      (∀ p ∈ ps, isErr p.repositories = false) →
      walkProjects ps imgs errs = (imgs ++ expectedImages ps, errs ++ expectedErrors ps)
  | [], imgs, errs, _ => by simp [walkProjects, expectedImages, expectedErrors]
  | p :: ps, imgs, errs, hok => by
    cases hp : p.repositories with
    | error e =>
      have := hok p (List.mem_cons_self p ps)
      rw [hp] at this
      simp [isErr] at this
    | ok repos =>
      have hok2 : ∀ q ∈ ps, isErr q.repositories = false :=
        fun q hq => hok q (List.mem_cons_of_mem p hq)
      have ih := walkProjects_all_ok ps (imgs ++ (processRepos p.name repos).1)
        (errs ++ (processRepos p.name repos).2) hok2
      have hexp1 : expectedImages (p :: ps)
          = (processRepos p.name repos).1 ++ expectedImages ps := by
        simp [expectedImages, reposOf, hp, processRepos_eq]
      have hexp2 : expectedErrors (p :: ps)
          = (processRepos p.name repos).2 ++ expectedErrors ps := by
        simp [expectedErrors, reposOf, hp, processRepos_eq]
      simp only [walkProjects, hp, ih, hexp1, hexp2]
      simp [List.append_assoc]

theorem containerdBranch_errors_source (crictl : CrictlOutcome) (ignored : List String) :
    ∀ e ∈ (containerdBranch crictl ignored).2, e.source = "containerd" := by
  cases crictl <;> simp [containerdBranch]

/-! ### Claim C2 -/

/-- C2 counterexample: with the first project fully successful (its one
repository contributes a record) and the second project's repository-list
fetch failing, the collection gathered before the failure is non-empty, yet
the response's harbor_images is the empty list — the partial collection is
not returned, contradicting the claim as stated. -/
theorem harbor_list_failure_cex :
    (processRepo "p1" repoGood).1 ≠ []
    ∧ (get_all_images (.ok "IMAGE LIST") [] cfgOk worldListFail).harbor_images = [] := by
  exact ⟨by decide, by decide⟩

/-- C2 (amended): if fetching the project list or a project's repository
list fails, the response records exactly one unscoped error with source
"harbor" (besides any repository-scoped harbor errors recorded earlier), the
harbor branch stops, and the returned harbor_images is empty — whatever had
been collected before the failure is discarded, because the local collection
is committed to the result only after the whole walk succeeds. -/
theorem harbor_list_failure_unscoped_error :
    ∀ (cfg : HarborConfig) (world : HarborWorld),
      harborConfigComplete cfg = true → anyListFetchFails world = true →
      (harborBranch cfg world).1 = []
      ∧ ((harborBranch cfg world).2.filter isUnscopedHarbor).length = 1
      ∧ ∀ e ∈ (harborBranch cfg world).2, e.source = "harbor" := by
  intro cfg world hcfg hfail
  unfold anyListFetchFails at hfail
  cases hw : world.projects with
  | error e =>
    refine ⟨by simp [harborBranch, hcfg, hw], ?_, ?_⟩
    · simp [harborBranch, hcfg, hw, isUnscopedHarbor]
    · intro x hx
      simp only [harborBranch, hcfg, hw, if_true] at hx
      simp at hx
      rw [hx]
  | ok ps =>
    rw [hw] at hfail
    have h := walkProjects_list_failure ps [] [] (by simp) hfail
    simpa [harborBranch, hcfg, hw] using h

/-- Witness for C2: the amended statement applied to the two-project world
whose second repository-list fetch fails. -/
theorem harbor_list_failure_unscoped_error_witness :
    harborConfigComplete cfgOk = true
    ∧ anyListFetchFails worldListFail = true
    ∧ ((harborBranch cfgOk worldListFail).1 = []
       ∧ ((harborBranch cfgOk worldListFail).2.filter isUnscopedHarbor).length = 1
       ∧ ∀ e ∈ (harborBranch cfgOk worldListFail).2, e.source = "harbor") :=
  ⟨by decide, by decide,
   harbor_list_failure_unscoped_error cfgOk worldListFail (by decide) (by decide)⟩

/-! ### Claim C3 -/

/-- C3: when the project and repository listings all succeed, the harbor
branch yields exactly the per-repository record blocks of the repositories
whose artifact fetch succeeded and exactly one repository-scoped error per
repository whose artifact fetch failed, in walk order; in particular every
failing repository's scoped error is recorded and every successful
repository's records appear. -/
theorem artifact_failure_scoped_and_continues :
    ∀ (cfg : HarborConfig) (world : HarborWorld) (ps : List ProjectData),
      harborConfigComplete cfg = true →
      world.projects = .ok ps →
      (∀ p ∈ ps, isErr p.repositories = false) →
      harborBranch cfg world = (expectedImages ps, expectedErrors ps)
      ∧ ∀ p ∈ ps, ∀ r ∈ reposOf p,
          (∀ e ∈ repoErrors r, e ∈ (harborBranch cfg world).2)
          ∧ ∀ img ∈ repoImages p.name r, img ∈ (harborBranch cfg world).1 := by
  intro cfg world ps hcfg hw hok
  have h1 : harborBranch cfg world = (expectedImages ps, expectedErrors ps) := by
    simp [harborBranch, hcfg, hw, walkProjects_all_ok ps [] [] hok]
  refine ⟨h1, ?_⟩
  intro p hp r hr
  constructor
  · intro e he
    rw [h1]
    exact List.mem_flatten.mpr ⟨_, List.mem_map_of_mem _ hp,
      List.mem_flatten.mpr ⟨_, List.mem_map_of_mem _ hr, he⟩⟩
  · intro img himg
    rw [h1]
    exact List.mem_flatten.mpr ⟨_, List.mem_map_of_mem _ hp,
      List.mem_flatten.mpr ⟨_, List.mem_map_of_mem _ hr, himg⟩⟩

/-- Witness for C3: one project with one successful and one failing
repository. -/
theorem artifact_failure_scoped_and_continues_witness :
    harborConfigComplete cfgOk = true
    ∧ worldRepoFail.projects = .ok [⟨"p1", .ok [repoGood, repoBad]⟩]
    ∧ (harborBranch cfgOk worldRepoFail
        = (expectedImages [⟨"p1", .ok [repoGood, repoBad]⟩],
           expectedErrors [⟨"p1", .ok [repoGood, repoBad]⟩])
       ∧ ∀ p ∈ [(⟨"p1", .ok [repoGood, repoBad]⟩ : ProjectData)], ∀ r ∈ reposOf p,
           (∀ e ∈ repoErrors r, e ∈ (harborBranch cfgOk worldRepoFail).2)
           ∧ ∀ img ∈ repoImages p.name r, img ∈ (harborBranch cfgOk worldRepoFail).1) :=
  ⟨by decide, rfl,
   artifact_failure_scoped_and_continues cfgOk worldRepoFail
     [⟨"p1", .ok [repoGood, repoBad]⟩] (by decide) rfl (by decide)⟩

/-! ### Claim C4 -/

/-- C4: when any of url, user, password is empty, the response's harbor
error list is exactly the single "Harbor configuration incomplete" entry,
harbor_images is empty, and the result does not depend on the registry at
all (no request is attempted). -/
theorem incomplete_config_single_error :
    ∀ (crictl : CrictlOutcome) (ignored : List String) (cfg : HarborConfig)
      (world : HarborWorld),
      (cfg.url = "" ∨ cfg.user = "" ∨ cfg.password = "") →
      (get_all_images crictl ignored cfg world).harbor_images = []
      ∧ (get_all_images crictl ignored cfg world).errors.filter
          (fun e => e.source == "harbor")
          = [⟨"harbor", none, "Harbor configuration incomplete"⟩]
      ∧ ∀ world' : HarborWorld,
          get_all_images crictl ignored cfg world
            = get_all_images crictl ignored cfg world' := by
  intro crictl ignored cfg world h
  have hcfg : harborConfigComplete cfg = false := by
    rcases h with h | h | h <;> simp [harborConfigComplete, h]
  have hb : ∀ w : HarborWorld, harborBranch cfg w
      = ([], [⟨"harbor", none, "Harbor configuration incomplete"⟩]) := by
    intro w
    simp [harborBranch, hcfg]
  have hcerr : ((containerdBranch crictl ignored).2.filter
      (fun e => e.source == "harbor")) = [] := by
    rw [List.filter_eq_nil_iff]
    intro e he
    simp [containerdBranch_errors_source crictl ignored e he]
  refine ⟨?_, ?_, ?_⟩
  · simp [get_all_images, hb]
  · simp [get_all_images, hb, List.filter_append, hcerr]
  · intro world'
    simp [get_all_images, hb]

/-- Witness for C4: the configuration with empty password, a failing crictl
call, and the fifteen-record world (which is nevertheless never consulted). -/
theorem incomplete_config_single_error_witness :
    (cfgNoPw.url = "" ∨ cfgNoPw.user = "" ∨ cfgNoPw.password = "")
    ∧ ((get_all_images (.fail "err") [] cfgNoPw worldFifteen).harbor_images = []
       ∧ (get_all_images (.fail "err") [] cfgNoPw worldFifteen).errors.filter
           (fun e => e.source == "harbor")
           = [⟨"harbor", none, "Harbor configuration incomplete"⟩]
       ∧ ∀ world' : HarborWorld,
           get_all_images (.fail "err") [] cfgNoPw worldFifteen
             = get_all_images (.fail "err") [] cfgNoPw world') :=
  ⟨Or.inr (Or.inr rfl),
   incomplete_config_single_error (.fail "err") [] cfgNoPw worldFifteen
     (Or.inr (Or.inr rfl))⟩

/-! ### Claim C5 -/

/-- C5: each collection of the response is exactly what its own branch
produced, and is unchanged under any variation of the other source's inputs
— in particular under any containerd failure or any harbor failure. -/
theorem branch_isolation :
    ∀ (crictl : CrictlOutcome) (ignored : List String) (cfg : HarborConfig)
      (world : HarborWorld),
      ((get_all_images crictl ignored cfg world).harbor_images
        = (harborBranch cfg world).1)
      ∧ ((get_all_images crictl ignored cfg world).containerd_images
        = (containerdBranch crictl ignored).1)
      ∧ (∀ (crictl' : CrictlOutcome) (ignored' : List String),
          (get_all_images crictl' ignored' cfg world).harbor_images
            = (get_all_images crictl ignored cfg world).harbor_images)
      ∧ (∀ (cfg' : HarborConfig) (world' : HarborWorld),
          (get_all_images crictl ignored cfg' world').containerd_images
            = (get_all_images crictl ignored cfg world).containerd_images) := by
  intro crictl ignored cfg world
  exact ⟨rfl, rfl, fun _ _ => rfl, fun _ _ => rfl⟩

/-! ### Claim C6 -/

/-- C6: the flattening emits exactly one record per (artifact, tag) pair,
carrying the full repository name, the owning project name, the tag name,
the artifact digest, and the size string computed once from the artifact's
byte count — so all tags of one artifact share an identical size string —
and on the concrete world with 2 projects, 3 repositories and 5 artifacts
each tagged once, exactly 15 harbor_images records are produced. -/
theorem flatten_one_record_per_tag :
    (∀ (rn pn : String) (arts : List Artifact),
      flattenArtifacts rn pn arts = flattenArtifactsSpec rn pn arts)
    ∧ (get_all_images (.fail "crictl failed") [] cfgOk worldFifteen).harbor_images.length
        = 15 := by
  constructor
  · intro rn pn arts
    induction arts with
    | nil => rfl
    | cons a as ih =>
      have h1 : flattenArtifacts rn pn (a :: as)
          = tagRecords rn pn a (naturalsize a.size) ++ flattenArtifacts rn pn as := by
        simp [flattenArtifacts, convertSizes]
      have h2 : flattenArtifactsSpec rn pn (a :: as)
          = (a.tags.getD []).map
              (fun tg => ⟨rn, tg.name, a.digest, naturalsize a.size, pn⟩)
            ++ flattenArtifactsSpec rn pn as := by
        simp [flattenArtifactsSpec]
      rw [h1, h2, ih]
      congr 1
      cases h : a.tags with
      | none => simp [tagRecords, h]
      | some l =>
        cases l with
        | nil => simp [tagRecords, h]
        | cons t ts => simp [tagRecords, h]
  · decide

/-! ### Claim C7 -/

/-- C7: for every combination of source outcomes the endpoint responds with
HTTP status 200 and a body carrying the three collections — each branch's
images and the concatenated error list — so no failure becomes a
transport-level failure. -/
theorem endpoint_always_200 :
    ∀ (crictl : CrictlOutcome) (ignored : List String) (cfg : HarborConfig)
      (world : HarborWorld),
      (imagesEndpoint crictl ignored cfg world).status = 200
      ∧ (imagesEndpoint crictl ignored cfg world).body.containerd_images
          = (containerdBranch crictl ignored).1
      ∧ (imagesEndpoint crictl ignored cfg world).body.harbor_images
          = (harborBranch cfg world).1
      ∧ (imagesEndpoint crictl ignored cfg world).body.errors
          = (containerdBranch crictl ignored).2 ++ (harborBranch cfg world).2 := by
  intro crictl ignored cfg world
  exact ⟨rfl, rfl, rfl, rfl⟩

/-! ### Claim C10 -/

/-- C10: an artifact whose tags field is absent, null, or an empty list
contributes no record: deleting it from the artifact list leaves the
flattening unchanged. -/
theorem untagged_artifact_omitted :
    ∀ (rn pn : String) (pre post : List Artifact) (a : Artifact),
      a.tags = none ∨ a.tags = some [] →
      flattenArtifacts rn pn (pre ++ a :: post)
        = flattenArtifacts rn pn (pre ++ post) := by
  intro rn pn pre post a ha
  have hrec : tagRecords rn pn a (naturalsize a.size) = [] := by
    rcases ha with h | h <;> simp [tagRecords, h]
  simp [flattenArtifacts, convertSizes, hrec]

/-- Witness for C10: deleting a tagless artifact sitting after a tagged one
leaves the flattening unchanged. -/
theorem untagged_artifact_omitted_witness :
    ((⟨"sha256:zzz", 5, none⟩ : Artifact).tags = none
      ∨ (⟨"sha256:zzz", 5, none⟩ : Artifact).tags = some [])
    ∧ flattenArtifacts "p1/good" "p1" ([artTagged] ++ (⟨"sha256:zzz", 5, none⟩ : Artifact) :: [])
        = flattenArtifacts "p1/good" "p1" ([artTagged] ++ []) :=
  ⟨Or.inl rfl,
   untagged_artifact_omitted "p1/good" "p1" [artTagged] [] ⟨"sha256:zzz", 5, none⟩
     (Or.inl rfl)⟩

/-! ### Helper lemmas about pagination -/

theorem lt_ceil_iff (k N P : Nat) (hP : 0 < P) : k < (N + P - 1) / P ↔ k * P < N := by
  rw [Nat.lt_iff_add_one_le, Nat.le_div_iff_mul_le hP, Nat.add_mul, Nat.one_mul]
  generalize k * P = m
  omega

theorem numPages_pos (N P : Nat) : 1 ≤ numPages N P := le_max_left 1 _

theorem le_numPages_mul (N P : Nat) (hP : 0 < P) : N ≤ numPages N P * P := by
  have h1 : N ≤ ((N + P - 1) / P) * P := by
    by_contra hc
    push_neg at hc
    exact absurd ((lt_ceil_iff ((N + P - 1) / P) N P hP).mpr hc) (lt_irrefl _)
  calc N ≤ ((N + P - 1) / P) * P := h1
    _ ≤ numPages N P * P := Nat.mul_le_mul_right P (le_max_right 1 _)

theorem mul_lt_of_lt_numPages (k N P : Nat) (hP : 0 < P) (hk : 1 ≤ k)
    (h : k < numPages N P) : k * P < N := by
  have hceil : k < (N + P - 1) / P := by
    rcases lt_max_iff.mp h with h1 | h1
    · omega
    · exact h1
  exact (lt_ceil_iff k N P hP).mp hceil

theorem sub_one_mul_add (k P : Nat) (hk : 1 ≤ k) : (k - 1) * P + P = k * P := by
  cases k with
  | zero => exact absurd hk (by decide)
  | succ m => simp [Nat.succ_sub_one, Nat.succ_mul]

theorem take_append_page {α : Type} (items : List α) (P k : Nat) (hk : 1 ≤ k) :
    items.take ((k - 1) * P) ++ pageOf items P k = items.take (k * P) :=
  calc items.take ((k - 1) * P) ++ (items.drop ((k - 1) * P)).take P
      = items.take ((k - 1) * P + P) := (List.take_add items ((k - 1) * P) P).symm
    _ = items.take (k * P) := by rw [sub_one_mul_add k P hk]

theorem pageOf_length_full {α : Type} (items : List α) (P k : Nat) (hk : 1 ≤ k)
    (hkN : k * P < items.length) : (pageOf items P k).length = P := by
  rw [pageOf, List.length_take, List.length_drop]
  have h := sub_one_mul_add k P hk
  omega

theorem fetchPages_honest {α : Type} (items : List α) (P : Nat) (hP : 0 < P) :
    ∀ (fuel k nreq : Nat), 1 ≤ k → k ≤ numPages items.length P →
      numPages items.length P - k < fuel →
      fetchPages (honestFetch items P) P fuel k (items.take ((k - 1) * P)) nreq
        = .ok (items, nreq + (numPages items.length P - k + 1))
  | 0, k, nreq, _, _, hfuel => absurd hfuel (by omega)
  | fuel + 1, k, nreq, hk1, hkM, hfuel => by
    have hacc := take_append_page items P k hk1
    by_cases hlast : k = numPages items.length P
    · have hNle : items.length ≤ (items.take (k * P)).length := by
        rw [List.length_take]
        have := le_numPages_mul items.length P hP
        rw [← hlast] at this
        omega
      have htake : items.take (k * P) = items := by
        apply List.take_of_length_le
        have := le_numPages_mul items.length P hP
        rw [← hlast] at this
        exact this
      simp only [fetchPages, honestFetch, hacc]
      rw [if_pos (Or.inl hNle), htake, hlast]
      have : numPages items.length P - numPages items.length P + 1 = 1 := by omega
      rw [this]
    · have hklt : k < numPages items.length P := lt_of_le_of_ne hkM hlast
      have hkN : k * P < items.length := mul_lt_of_lt_numPages k items.length P hP hk1 hklt
      have hcond : ¬(items.length ≤ (items.take (k * P)).length
          ∨ (pageOf items P k).length < P) := by
        rw [List.length_take, pageOf_length_full items P k hk1 hkN]
        omega
      have hnext : items.take (k * P) = items.take (((k + 1) - 1) * P) := by
        simp
      have ih := fetchPages_honest items P hP fuel (k + 1) (nreq + 1)
        (by omega) (by omega) (by omega)
      rw [← hnext] at ih
      simp only [fetchPages, honestFetch, hacc]
      rw [if_neg hcond, ih]
      have : nreq + 1 + (numPages items.length P - (k + 1) + 1)
          = nreq + (numPages items.length P - k + 1) := by omega
      rw [this]

theorem fetchPages_failAt {α : Type} (items : List α) (P j : Nat) (err : String)
    (hP : 0 < P) (hjM : j ≤ numPages items.length P) :
    ∀ (fuel k nreq : Nat), 1 ≤ k → k ≤ j → j - k < fuel →
      fetchPages (failAtFetch items P j err) P fuel k (items.take ((k - 1) * P)) nreq
        = .error err
  | 0, k, nreq, _, _, hfuel => absurd hfuel (by omega)
  | fuel + 1, k, nreq, hk1, hkj, hfuel => by
    by_cases hkjeq : k = j
    · simp only [fetchPages, failAtFetch, if_pos hkjeq]
    · have hklt : k < j := lt_of_le_of_ne hkj hkjeq
      have hkM : k < numPages items.length P := lt_of_lt_of_le hklt hjM
      have hkN : k * P < items.length := mul_lt_of_lt_numPages k items.length P hP hk1 hkM
      have hacc := take_append_page items P k hk1
      have hcond : ¬(items.length ≤ (items.take (k * P)).length
          ∨ (pageOf items P k).length < P) := by
        rw [List.length_take, pageOf_length_full items P k hk1 hkN]
        omega
      have hnext : items.take (k * P) = items.take (((k + 1) - 1) * P) := by
        simp
      have ih := fetchPages_failAt items P j err hP hjM fuel (k + 1) (nreq + 1)
        (by omega) (by omega) (by omega)
      rw [← hnext] at ih
      simp only [fetchPages, failAtFetch, if_neg hkjeq, honestFetch, hacc]
      rw [if_neg hcond, ih]

/-! ### Claim C8 -/

/-- C8 counterexample: for the empty collection (N = 0 items, page size 1)
the client must issue one page request to learn the reported total, so it
does not perform ⌈N/P⌉ = 0 requests: the result carries request count 1,
refuting the claimed exact count at this input. -/
theorem paginated_results_empty_cex :
    get_harbor_paginated_results (honestFetch ([] : List Nat) 1) 1 2
      ≠ .ok (([] : List Nat), (([] : List Nat).length + 1 - 1) / 1) := by
  decide

/-- C8 (amended): for any collection of N items with page size P > 0 the
client issues exactly max 1 ⌈N/P⌉ sequential page requests (one request is
always issued, since the total is only learnt from the first response) and
returns exactly the N items in original order, stopping when the accumulated
count reaches the reported total or a page comes back shorter than the page
size; and a failure on any page the loop reaches aborts the whole fetch with
that single error and no partial result. -/
theorem paginated_results_page_count :
    ∀ {α : Type} (items : List α) (P fuel : Nat), 0 < P →
      numPages items.length P ≤ fuel →
      get_harbor_paginated_results (honestFetch items P) P fuel
          = .ok (items, numPages items.length P)
      ∧ ∀ (j : Nat) (err : String), 1 ≤ j → j ≤ numPages items.length P →
          get_harbor_paginated_results (failAtFetch items P j err) P fuel
            = .error err := by
  intro α items P fuel hP hfuel
  have htake0 : items.take ((1 - 1) * P) = [] := by simp
  constructor
  · have h := fetchPages_honest items P hP fuel 1 0 (le_refl 1)
      (numPages_pos items.length P)
      (by have := numPages_pos items.length P; omega)
    rw [htake0] at h
    simp only [get_harbor_paginated_results]
    rw [h]
    have hM : 0 + (numPages items.length P - 1 + 1) = numPages items.length P := by
      have := numPages_pos items.length P
      omega
    rw [hM]
  · intro j err hj1 hjM
    have h := fetchPages_failAt items P j err hP hjM fuel 1 0 (le_refl 1) hj1 (by omega)
    rw [htake0] at h
    simp only [get_harbor_paginated_results]
    exact h

/-- Witness for C8: three items at page size two take exactly two requests
(the second page is short), and a failure on either page aborts the fetch. -/
theorem paginated_results_page_count_witness :
    0 < 2
    ∧ numPages ([10, 20, 30] : List Nat).length 2 ≤ 5
    ∧ (get_harbor_paginated_results (honestFetch ([10, 20, 30] : List Nat) 2) 2 5
         = .ok ([10, 20, 30], numPages ([10, 20, 30] : List Nat).length 2)
       ∧ ∀ (j : Nat) (err : String), 1 ≤ j →
           j ≤ numPages ([10, 20, 30] : List Nat).length 2 →
           get_harbor_paginated_results (failAtFetch ([10, 20, 30] : List Nat) 2 j err) 2 5
             = .error err) :=
  ⟨by decide, by decide,
   paginated_results_page_count [10, 20, 30] 2 5 (by decide) (by decide)⟩

end ClusterImages

